import Mathlib

/-!
Verification of the restic `forget` command (src/cmds/restic/cmd_forget.go).

The embedding below translates the Go source into Lean. The repository,
its backend, the lock helpers and the `restic` package functions called by
`CmdForget.Execute` are external collaborators (they are not under src/);
they are modelled as an abstract environment of result-returning functions,
and every call the command makes to a collaborator is recorded as an event
in an execution trace. `CmdForget.Execute` itself, `printSnapshots`, the
grouping loop and the per-group deletion loop are translated statement by
statement from the Go file.
-/

/-- Snapshot record (restic.Snapshot): identifier, creation timestamp,
hostname, ordered list of backed-up paths, list of tags. Timestamps are
abstracted to a totally ordered Nat; identifiers to the string used by
repo.Backend().Remove. -/
structure Snapshot where
  id : String
  time : Nat
  hostname : String
  paths : List String
  tags : List String
  deriving DecidableEq, Repr

/-- restic.ExpirePolicy as Execute builds it from the command-line flags
(cmd_forget.go lines 127-135). -/
structure ExpirePolicy where
  last : Nat
  hourly : Nat
  daily : Nat
  weekly : Nat
  monthly : Nat
  yearly : Nat
  tags : List String
  deriving DecidableEq, Repr

/-- Modelled from the spec: restic.ExpirePolicy.Empty is not under src/.
The spec states a policy is empty iff every count is 0 and the keep-tag
list is empty. -/
def ExpirePolicy.isEmptyPolicy (p : ExpirePolicy) : Bool :=
  p.last == 0 && p.hourly == 0 && p.daily == 0 && p.weekly == 0 &&
    p.monthly == 0 && p.yearly == 0 && p.tags.isEmpty

/-- Modelled from the spec: restic.Snapshot.HasTags is not under src/.
The spec states the snapshot must carry all of the required filter tags
(an empty requirement is satisfied by every snapshot). -/
def hasTags (sn : Snapshot) (req : List String) : Bool :=
  req.all (fun t => sn.tags.contains t)

/-- The CmdForget option struct (cmd_forget.go lines 11-27). -/
structure CmdForget where
  last : Nat
  hourly : Nat
  daily : Nat
  weekly : Nat
  monthly : Nat
  yearly : Nat
  keepTags : List String
  hostname : String
  tags : List String
  dryRun : Bool
  deriving DecidableEq, Repr

/-- The policy Execute constructs from its flags (cmd_forget.go 127-135). -/
def CmdForget.policy (cmd : CmdForget) : ExpirePolicy :=
  { last := cmd.last, hourly := cmd.hourly, daily := cmd.daily,
    weekly := cmd.weekly, monthly := cmd.monthly, yearly := cmd.yearly,
    tags := cmd.keepTags }

/-- Modelled from the spec: the calendar bucket-key functions (hour, day,
ISO week, month, year of a timestamp). The spec leaves the calendar
library and the UTC-versus-local choice open, so the five key functions
are abstract parameters; the bucketed passes only compare keys for
equality. -/
structure GranKeys where
  hourly : Nat → Nat
  daily : Nat → Nat
  weekly : Nat → Nat
  monthly : Nat → Nat
  yearly : Nat → Nat

/-- Modelled from the spec: one bucketed pass of the policy evaluator.
Walk the remaining snapshots newest-first carrying the set of consumed
bucket keys and the running count; a snapshot is kept by this pass when
its bucket key is not yet consumed and the count is below the limit. -/
def bucketPass (key : Nat → Nat) (limit : Nat) :
    List Snapshot → List Nat → Nat → List Snapshot
  | [], _, _ => []
  | s :: rest, seen, cnt =>
    if cnt < limit && !(seen.contains (key s.time)) then
      s :: bucketPass key limit rest (key s.time :: seen) (cnt + 1)
    else
      bucketPass key limit rest seen cnt

/-- Sort a group most-recent first, as the evaluator's first step. -/
def sortByTimeDesc (l : List Snapshot) : List Snapshot :=
  List.insertionSort (fun a b => b.time ≤ a.time) l

/-- Modelled from the spec: the keep decision of the policy evaluator for
one snapshot of the group. A snapshot is kept iff some pass selects it:
the tag pass (its tags intersect the policy's keep-tags), the last-N pass
(it is among the first keepLast non-tag-kept snapshots in descending time
order), or one of the five independent bucketed passes (hourly, daily,
weekly, monthly, yearly) run over the non-tag-kept, non-last-kept
snapshots. -/
def keptByPolicy (keys : GranKeys) (group : List Snapshot) (p : ExpirePolicy)
    (s : Snapshot) : Bool :=
  let sorted := sortByTimeDesc group
  let tagTest : Snapshot → Bool := fun t => t.tags.any (fun tg => p.tags.contains tg)
  let rest := sorted.filter (fun t => !tagTest t)
  let lastKeep := rest.take p.last
  let rest2 := rest.drop p.last
  let bucketKeep :=
    bucketPass keys.hourly p.hourly rest2 [] 0 ++
    bucketPass keys.daily p.daily rest2 [] 0 ++
    bucketPass keys.weekly p.weekly rest2 [] 0 ++
    bucketPass keys.monthly p.monthly rest2 [] 0 ++
    bucketPass keys.yearly p.yearly rest2 [] 0
  tagTest s || lastKeep.contains s || bucketKeep.contains s

/-- Modelled from the spec: restic.ApplyPolicy is not under src/. Sort the
group most-recent first; the keep-set is the union of all passes'
selections, in descending time order, and the remove-set is the group
minus the keep-set, in the same order. -/
def applyPolicy (keys : GranKeys) (group : List Snapshot) (p : ExpirePolicy) :
    List Snapshot × List Snapshot :=
  ((sortByTimeDesc group).filter (keptByPolicy keys group p),
   (sortByTimeDesc group).filter (fun s => !keptByPolicy keys group p s))

/-- Group key used by Execute (the local struct `key` with fields
Hostname and Dirs, cmd_forget.go lines 148-151). -/
structure GroupKey where
  hostname : String
  dirs : String
  deriving DecidableEq, Repr

/-- Embedding of Go strings.Join(paths, ":") (cmd_forget.go line 164). -/
def joinColon : List String → String
  | [] => ""
  | [p] => p
  | p :: q :: rest => p ++ ":" ++ joinColon (q :: rest)

/-- The group key of a snapshot: hostname and colon-joined path list. -/
def snapKey (sn : Snapshot) : GroupKey :=
  { hostname := sn.hostname, dirs := joinColon sn.paths }

/-- The two `continue` filters of the grouping loop (cmd_forget.go lines
155-162): a snapshot survives unless a non-empty hostname filter differs
from its hostname, or it lacks one of the required tags. -/
def survives (cmd : CmdForget) (sn : Snapshot) : Bool :=
  !(cmd.hostname != "" && sn.hostname != cmd.hostname) && hasTags sn cmd.tags

/-- Append a surviving snapshot to the bucket of its key, keeping buckets
in first-insertion order (the Go map write snapshotGroups[k] = append). -/
def addToGroup : List (GroupKey × List Snapshot) → GroupKey → Snapshot →
    List (GroupKey × List Snapshot)
  | [], k, sn => [(k, [sn])]
  | (k', l) :: rest, k, sn =>
    if k' = k then (k', l ++ [sn]) :: rest
    else (k', l) :: addToGroup rest k sn

/-- The grouping loop of Execute (cmd_forget.go lines 155-168), folded
over the loaded snapshots. Go map iteration order is unspecified; the
association list fixes first-insertion order as a deterministic stand-in,
which the spec says no property may depend on. -/
def buildGroups (cmd : CmdForget) :
    List Snapshot → List (GroupKey × List Snapshot) → List (GroupKey × List Snapshot)
  | [], acc => acc
  | sn :: rest, acc =>
    if survives cmd sn then buildGroups cmd rest (addToGroup acc (snapKey sn) sn)
    else buildGroups cmd rest acc

/-- Grouping of the loaded snapshots as Execute performs it. -/
def groupSnapshots (cmd : CmdForget) (snaps : List Snapshot) :
    List (GroupKey × List Snapshot) :=
  buildGroups cmd snaps []

/-- Modelled from the spec: sn.Time.Format(TimeFormat) is presentation
only; the formatted date is abstracted to the decimal timestamp. -/
def timeStr (t : Nat) : String :=
  toString t

/-- Modelled from the spec: sn.ID().Str() shows the snapshot identifier
in a short display form, not pinned down by the spec; it is abstracted to
the identifier itself. -/
def shortId (sn : Snapshot) : String :=
  sn.id

/-- Table rows printSnapshots emits for one snapshot (cmd_forget.go lines
55-85): a snapshot with an empty path list is skipped; otherwise a main
row (id, date, host, first tag, first path) and one continuation row per
further path or tag index. -/
def snapRows (sn : Snapshot) : List (List String) :=
  if sn.paths.isEmpty then []
  else
    let firstTag := sn.tags.headD ""
    let rows := max sn.paths.length sn.tags.length
    [shortId sn, timeStr sn.time, sn.hostname, firstTag, sn.paths.headD ""] ::
      (List.range (rows - 1)).map (fun i =>
        ["", "", "", sn.tags.getD (i + 1) "", sn.paths.getD (i + 1) ""])

/-- All rows of the table printSnapshots writes for a snapshot list. -/
def tableRows (l : List Snapshot) : List (List String) :=
  (l.map snapRows).flatten

/-- Errors returned by the external collaborators. -/
abbrev Err := String

/-- Observable events of one Execute run: every call to an external
collaborator and every report line, in order. -/
inductive Event where
  | lockAcquire
  | lockRelease
  | loadIndex
  | findSnap (arg : String)
  | loadAllSnaps
  | backendRemove (id : String)
  | printRemoved (id : String)
  | printWouldRemove (id : String)
  | groupHeader (host : String) (dirs : String)
  | keepCount (n : Nat)
  | removeCount (n : Nat)
  | table (rows : List (List String))
  | blankLine
  deriving DecidableEq, Repr

/-- Abstract environment: outcomes of the external collaborators called
by Execute (repository open, exclusive lock, index load, snapshot
resolution, backend removal, snapshot listing) plus the calendar
bucket-key functions used by the policy evaluator. A `none` outcome is
success. -/
structure Env where
  openOk : Option Err
  lockOk : Option Err
  indexOk : Option Err
  findSnap : String → Except Err String
  removeOk : String → Option Err
  loadAll : Except Err (List Snapshot)
  keys : GranKeys

/-- The explicit-identifier loop of Execute (cmd_forget.go lines 108-125):
resolve each argument in order; a resolution failure returns that error at
once; otherwise remove the snapshot and report, or only report under
dry-run. -/
def processArgs (env : Env) (dryRun : Bool) : List String → List Event × Option Err
  | [] => ([], none)
  | s :: rest =>
    match env.findSnap s with
    | .error e => ([.findSnap s], some e)
    | .ok id =>
      if dryRun then
        let r := processArgs env dryRun rest
        (.findSnap s :: .printWouldRemove id :: r.1, r.2)
      else
        match env.removeOk id with
        | some e => ([.findSnap s, .backendRemove id], some e)
        | none =>
          let r := processArgs env dryRun rest
          (.findSnap s :: .backendRemove id :: .printRemoved id :: r.1, r.2)

/-- The per-group removal loop (cmd_forget.go lines 183-188): sequential
backend removals, returning the first failure at once. -/
def removeSeq (env : Env) : List Snapshot → List Event × Option Err
  | [] => ([], none)
  | sn :: rest =>
    match env.removeOk sn.id with
    | some e => ([.backendRemove sn.id], some e)
    | none =>
      let r := removeSeq env rest
      (.backendRemove sn.id :: r.1, r.2)

/-- The report a group receives before any deletion (cmd_forget.go lines
171-180): header with the group identity, keep count, keep table, blank
line, remove count, remove table, blank line. -/
def reportEvents (keys : GranKeys) (p : ExpirePolicy) (k : GroupKey)
    (g : List Snapshot) : List Event :=
  let pr := applyPolicy keys g p
  [.groupHeader k.hostname k.dirs,
   .keepCount pr.1.length, .table (tableRows pr.1), .blankLine,
   .removeCount pr.2.length, .table (tableRows pr.2), .blankLine]

/-- The body of the per-group loop (cmd_forget.go lines 170-190): print
the report, then, unless dry-run, remove the remove-set sequentially. -/
def processGroup (env : Env) (dryRun : Bool) (p : ExpirePolicy)
    (kg : GroupKey × List Snapshot) : List Event × Option Err :=
  let rep := reportEvents env.keys p kg.1 kg.2
  if dryRun then (rep, none)
  else
    let r := removeSeq env (applyPolicy env.keys kg.2 p).2
    (rep ++ r.1, r.2)

/-- The per-group loop over all groups: a failing group returns its error
at once and later groups are not processed. -/
def processGroups (env : Env) (dryRun : Bool) (p : ExpirePolicy) :
    List (GroupKey × List Snapshot) → List Event × Option Err
  | [] => ([], none)
  | kg :: rest =>
    let r := processGroup env dryRun p kg
    match r.2 with
    | some e => (r.1, some e)
    | none =>
      let rr := processGroups env dryRun p rest
      (r.1 ++ rr.1, rr.2)

/-- Execute after the lock has been obtained (cmd_forget.go lines
103-192): load the index, process the explicit arguments, stop if the
policy is empty, load all snapshots, group them and run the per-group
loop. -/
def executeBody (env : Env) (cmd : CmdForget) (args : List String) :
    List Event × Option Err :=
  match env.indexOk with
  | some e => ([.loadIndex], some e)
  | none =>
    let ra := processArgs env cmd.dryRun args
    match ra.2 with
    | some e => (.loadIndex :: ra.1, some e)
    | none =>
      if cmd.policy.isEmptyPolicy then (.loadIndex :: ra.1, none)
      else
        match env.loadAll with
        | .error e => (.loadIndex :: ra.1 ++ [.loadAllSnaps], some e)
        | .ok snaps =>
          let rg := processGroups env cmd.dryRun cmd.policy (groupSnapshots cmd snaps)
          (.loadIndex :: ra.1 ++ .loadAllSnaps :: rg.1, rg.2)

/-- CmdForget.Execute (cmd_forget.go lines 91-193). OpenRepository comes
first; the deferred unlockRepo is registered immediately after the lock
call and therefore runs on every later exit path, including the path on
which the lock call itself failed (modelled by the trailing lockRelease
event); a successful lock acquisition is the lockAcquire event. -/
def execute (env : Env) (cmd : CmdForget) (args : List String) :
    List Event × Option Err :=
  match env.openOk with
  | some e => ([], some e)
  | none =>
    match env.lockOk with
    | some e => ([.lockRelease], some e)
    | none =>
      let body := executeBody env cmd args
      (.lockAcquire :: body.1 ++ [.lockRelease], body.2)

/-- Events one explicit argument contributes to the trace: resolution,
then, on success, either the would-remove report (dry run) or the backend
removal followed by the removed report (with nothing after a failed
removal). -/
def perArg (env : Env) (dryRun : Bool) (s : String) : List Event :=
  match env.findSnap s with
  | .error _ => [.findSnap s]
  | .ok id =>
    if dryRun then [.findSnap s, .printWouldRemove id]
    else
      match env.removeOk id with
      | some _ => [.findSnap s, .backendRemove id]
      | none => [.findSnap s, .backendRemove id, .printRemoved id]

/-- Whether processing one explicit argument succeeds: it resolves, and,
unless dry run, its backend removal succeeds. -/
def argOk (env : Env) (dryRun : Bool) (s : String) : Bool :=
  match env.findSnap s with
  | .error _ => false
  | .ok id => dryRun || (env.removeOk id).isNone

/-- Events that belong to the policy phase of Execute: snapshot loading,
group reports and everything printed by them. Explicit-argument events
and lock events are not policy-phase events. -/
def policyPhase : Event → Bool
  | .loadAllSnaps => true
  | .groupHeader _ _ => true
  | .keepCount _ => true
  | .removeCount _ => true
  | .table _ => true
  | .blankLine => true
  | _ => false

/-! Concrete fixtures used by the witness theorems. -/

def sampleKeys : GranKeys :=
  { hourly := fun t => t, daily := fun t => t, weekly := fun t => t,
    monthly := fun t => t, yearly := fun t => t }

def snapA : Snapshot :=
  { id := "ida", time := 3, hostname := "hostA", paths := ["/a"], tags := [] }

def snapB : Snapshot :=
  { id := "idb", time := 2, hostname := "hostA", paths := ["/a"], tags := ["pin"] }

def snapC : Snapshot :=
  { id := "idc", time := 1, hostname := "hostA", paths := ["/a"], tags := [] }

def snapD : Snapshot :=
  { id := "idd", time := 4, hostname := "hostB", paths := ["/b"], tags := [] }

def snapE1 : Snapshot :=
  { id := "ide1", time := 6, hostname := "hostA", paths := [], tags := [] }

def snapE2 : Snapshot :=
  { id := "ide2", time := 5, hostname := "hostA", paths := [], tags := [] }

def snapP : Snapshot :=
  { id := "idp", time := 2, hostname := "hostA", paths := ["a", "a:a"], tags := [] }

def snapQ : Snapshot :=
  { id := "idq", time := 1, hostname := "hostA", paths := ["a:a", "a"], tags := [] }

def envOk : Env :=
  { openOk := none, lockOk := none, indexOk := none,
    findSnap := fun s => Except.ok s,
    removeOk := fun _ => none,
    loadAll := Except.ok [snapA, snapB, snapC],
    keys := sampleKeys }

def envFindFail : Env :=
  { envOk with
    findSnap := fun s => (if s == "bad" then Except.error "snapshot not found" else Except.ok s) }

def envRemoveFail : Env :=
  { envOk with removeOk := fun i => (if i == "idc" then some "io error" else none) }

def envLockFail : Env :=
  { envOk with lockOk := some "repo already locked" }

def cmdBase : CmdForget :=
  { last := 1, hourly := 0, daily := 0, weekly := 0, monthly := 0, yearly := 0,
    keepTags := [], hostname := "", tags := [], dryRun := false }

def cmdDry : CmdForget :=
  { cmdBase with dryRun := true }

def cmdNoPolicy : CmdForget :=
  { cmdBase with last := 0 }

def cmdHostFilter : CmdForget :=
  { cmdBase with hostname := "hostA" }

def pLast1 : ExpirePolicy :=
  { last := 1, hourly := 0, daily := 0, weekly := 0, monthly := 0, yearly := 0, tags := [] }

/-! Generic list facts used below. -/

theorem filter_not_filter_perm {α : Type} (f : α → Bool) (l : List α) :
    List.Perm (l.filter f ++ l.filter (fun x => !f x)) l := by
  induction l with
  | nil => simp
  | cons a t ih =>
    cases h : f a with
    | true =>
      simpa [List.filter_cons, h] using ih.cons a
    | false =>
      simp only [List.filter_cons, h, Bool.not_false, if_true, if_false, cond_true, cond_false]
      simpa [h] using List.perm_middle.trans (ih.cons a)

theorem sortByTimeDesc_perm (l : List Snapshot) :
    List.Perm (sortByTimeDesc l) l :=
  List.perm_insertionSort _ l

/-- C2: for every snapshot group and every policy, the keep-set and
remove-set returned by the policy evaluation are disjoint, their union is
the input group (even as a multiset: their concatenation is a permutation
of the group), and every snapshot of the group lies in exactly one of the
two sets. -/
theorem applyPolicy_partition (keys : GranKeys) (g : List Snapshot) (p : ExpirePolicy) :
    List.Perm ((applyPolicy keys g p).1 ++ (applyPolicy keys g p).2) g ∧
    ∀ s : Snapshot,
      (s ∈ g ↔ (s ∈ (applyPolicy keys g p).1 ∨ s ∈ (applyPolicy keys g p).2)) ∧
      ¬(s ∈ (applyPolicy keys g p).1 ∧ s ∈ (applyPolicy keys g p).2) := by
  have hperm :
      List.Perm ((applyPolicy keys g p).1 ++ (applyPolicy keys g p).2) g := by
    simpa [applyPolicy] using
      (filter_not_filter_perm
        (fun s => keptByPolicy keys g p s) (sortByTimeDesc g)).trans (sortByTimeDesc_perm g)
  refine ⟨hperm, fun s => ⟨?_, ?_⟩⟩
  · have := hperm.mem_iff (a := s)
    simpa [List.mem_append] using this.symm
  · rintro ⟨h1, h2⟩
    have e1 : s ∈ sortByTimeDesc g ∧ keptByPolicy keys g p s = true := by
      simpa [applyPolicy, List.mem_filter] using h1
    have e2 : s ∈ sortByTimeDesc g ∧ keptByPolicy keys g p s = false := by
      simpa [applyPolicy, List.mem_filter] using h2
    simp [e1.2] at e2

theorem removeSeq_only_removes (env : Env) (l : List Snapshot) :
    ∀ e ∈ (removeSeq env l).1, ∃ i, e = Event.backendRemove i := by
  induction l with
  | nil => intro e he; simp [removeSeq] at he
  | cons sn rest ih =>
    intro e he
    cases h : env.removeOk sn.id with
    | some err =>
      simp [removeSeq, h] at he
      exact ⟨sn.id, he⟩
    | none =>
      simp [removeSeq, h] at he
      rcases he with rfl | he
      · exact ⟨sn.id, rfl⟩
      · exact ih e he

theorem reportEvents_no_removes (keys : GranKeys) (p : ExpirePolicy) (k : GroupKey)
    (g : List Snapshot) : ∀ e ∈ reportEvents keys p k g, ∀ i, e ≠ Event.backendRemove i := by
  intro e he i
  simp [reportEvents] at he
  rcases he with rfl | rfl | rfl | rfl | rfl | rfl | rfl <;> simp

/-- C10: for every group, the full report (group identity, kept count and
table, removed count and table) is printed before any deletion of the
group's remove-set: the trace of the per-group loop body is exactly the
report followed by a suffix consisting solely of backend removals, so the
complete intended outcome is already reported even when a removal then
fails mid-group. -/
theorem report_before_delete (env : Env) (dryRun : Bool) (p : ExpirePolicy)
    (kg : GroupKey × List Snapshot) :
    ∃ rem res,
      processGroup env dryRun p kg = (reportEvents env.keys p kg.1 kg.2 ++ rem, res) ∧
      (∀ e ∈ reportEvents env.keys p kg.1 kg.2, ∀ i, e ≠ Event.backendRemove i) ∧
      (∀ e ∈ rem, ∃ i, e = Event.backendRemove i) := by
  cases dryRun with
  | true =>
    exact ⟨[], none, by simp [processGroup], reportEvents_no_removes _ _ _ _, by simp⟩
  | false =>
    refine ⟨(removeSeq env (applyPolicy env.keys kg.2 p).2).1,
            (removeSeq env (applyPolicy env.keys kg.2 p).2).2,
            by simp [processGroup], reportEvents_no_removes _ _ _ _,
            removeSeq_only_removes _ _⟩

theorem removeSeq_all_ok (env : Env) (l : List Snapshot)
    (h : ∀ t ∈ l, env.removeOk t.id = none) :
    removeSeq env l = (l.map (fun t => Event.backendRemove t.id), none) := by
  induction l with
  | nil => rfl
  | cons sn rest ih =>
    have hsn : env.removeOk sn.id = none := h sn (by simp)
    have := ih (fun t ht => h t (by simp [ht]))
    simp [removeSeq, hsn, this]

theorem tableRows_drops_empty_paths (l : List Snapshot) :
    tableRows l = tableRows (l.filter (fun s => !s.paths.isEmpty)) := by
  induction l with
  | nil => rfl
  | cons s t ih =>
    cases h : s.paths.isEmpty with
    | true =>
      have hrows : snapRows s = [] := by simp [snapRows, h]
      simp [tableRows, List.filter_cons, h, hrows] at ih ⊢
      simpa [tableRows] using ih
    | false =>
      simp [tableRows, List.filter_cons, h] at ih ⊢
      simpa [tableRows] using ih

/-- C9: a snapshot with an empty path list is silently omitted from the
printed keep/remove tables (its table rows are empty, and the table of any
snapshot list equals the table of that list without its empty-path
entries), yet it still counts toward the reported remove count and is
still deleted when it is in a remove-set. -/
theorem emptyPaths_silently_omitted :
    (∀ l : List Snapshot, tableRows l = tableRows (l.filter (fun s => !s.paths.isEmpty))) ∧
    (∀ (env : Env) (p : ExpirePolicy) (k : GroupKey) (g : List Snapshot) (sn : Snapshot),
      sn ∈ (applyPolicy env.keys g p).2 → sn.paths = [] →
      (∀ t ∈ (applyPolicy env.keys g p).2, env.removeOk t.id = none) →
      snapRows sn = [] ∧
      Event.removeCount (applyPolicy env.keys g p).2.length ∈ (processGroup env false p (k, g)).1 ∧
      Event.backendRemove sn.id ∈ (processGroup env false p (k, g)).1) := by
  refine ⟨tableRows_drops_empty_paths, ?_⟩
  intro env p k g sn hmem hpaths hok
  refine ⟨by simp [snapRows, hpaths], ?_, ?_⟩
  · simp [processGroup, reportEvents]
  · have hseq := removeSeq_all_ok env (applyPolicy env.keys g p).2 hok
    simp [processGroup, hseq]
    right
    exact ⟨sn, hmem, rfl⟩

theorem processArgs_dry_no_remove (env : Env) (args : List String) (i : String) :
    Event.backendRemove i ∉ (processArgs env true args).1 := by
  induction args with
  | nil => simp [processArgs]
  | cons s rest ih =>
    cases h : env.findSnap s with
    | error e => simp [processArgs, h]
    | ok id2 =>
      simp [processArgs, h]
      exact ih

theorem processGroups_dry_no_remove (env : Env) (p : ExpirePolicy)
    (gs : List (GroupKey × List Snapshot)) (i : String) :
    Event.backendRemove i ∉ (processGroups env true p gs).1 := by
  induction gs with
  | nil => simp [processGroups]
  | cons kg rest ih =>
    have hpg : processGroup env true p kg = (reportEvents env.keys p kg.1 kg.2, none) := by
      simp [processGroup]
    intro hmem
    simp [processGroups, hpg] at hmem
    rcases hmem with h1 | h1
    · exact reportEvents_no_removes env.keys p kg.1 kg.2 _ h1 i rfl
    · exact ih h1

/-- C1: with the dry-run flag set, Execute never invokes the store's
removal function repo.Backend().Remove, neither for explicitly named
snapshots nor for any group's remove-set, for every environment, flag
combination and argument list. -/
theorem dryRun_never_removes (env : Env) (cmd : CmdForget) (args : List String)
    (h : cmd.dryRun = true) :
    ∀ i, Event.backendRemove i ∉ (execute env cmd args).1 := by
  intro i
  cases ho : env.openOk with
  | some e => simp [execute, ho]
  | none =>
    cases hl : env.lockOk with
    | some e => simp [execute, ho, hl]
    | none =>
      suffices hb : Event.backendRemove i ∉ (executeBody env cmd args).1 by
        simpa [execute, ho, hl] using hb
      cases hi : env.indexOk with
      | some e => simp [executeBody, hi]
      | none =>
        cases hp : (processArgs env true args).2 with
        | some e =>
          simp [executeBody, hi, hp, h]
          exact processArgs_dry_no_remove env args i
        | none =>
          cases hpe : cmd.policy.isEmptyPolicy with
          | true =>
            simp [executeBody, hi, hp, hpe, h]
            exact processArgs_dry_no_remove env args i
          | false =>
            cases hla : env.loadAll with
            | error e =>
              simp [executeBody, hi, hp, hpe, hla, h]
              exact processArgs_dry_no_remove env args i
            | ok snaps =>
              intro hmem
              simp [executeBody, hi, hp, hpe, hla, h] at hmem
              rcases hmem with h1 | h1
              · exact processArgs_dry_no_remove env args i h1
              · exact processGroups_dry_no_remove env cmd.policy
                  (groupSnapshots cmd snaps) i h1

theorem dryRun_never_removes_witness :
    cmdDry.dryRun = true ∧
    Event.backendRemove "ida" ∉ (execute envOk cmdDry ["ida"]).1 :=
  ⟨rfl, dryRun_never_removes envOk cmdDry ["ida"] rfl "ida"⟩

theorem processArgs_no_lock (env : Env) (dr : Bool) (args : List String) :
    ∀ e ∈ (processArgs env dr args).1, e ≠ Event.lockAcquire ∧ e ≠ Event.lockRelease := by
  induction args with
  | nil => simp [processArgs]
  | cons s rest ih =>
    intro e he
    cases h : env.findSnap s with
    | error err =>
      simp [processArgs, h] at he
      simp [he]
    | ok id2 =>
      cases dr with
      | true =>
        simp [processArgs, h] at he
        rcases he with rfl | rfl | he
        · simp
        · simp
        · exact ih e he
      | false =>
        cases hr : env.removeOk id2 with
        | some err =>
          simp [processArgs, h, hr] at he
          rcases he with rfl | rfl <;> simp
        | none =>
          simp [processArgs, h, hr] at he
          rcases he with rfl | rfl | rfl | he
          · simp
          · simp
          · simp
          · exact ih e he

theorem reportEvents_no_lock (keys : GranKeys) (p : ExpirePolicy) (k : GroupKey)
    (g : List Snapshot) :
    ∀ e ∈ reportEvents keys p k g, e ≠ Event.lockAcquire ∧ e ≠ Event.lockRelease := by
  intro e he
  simp [reportEvents] at he
  rcases he with rfl | rfl | rfl | rfl | rfl | rfl | rfl <;> simp

theorem processGroup_no_lock (env : Env) (dr : Bool) (p : ExpirePolicy)
    (kg : GroupKey × List Snapshot) :
    ∀ e ∈ (processGroup env dr p kg).1, e ≠ Event.lockAcquire ∧ e ≠ Event.lockRelease := by
  intro e he
  cases dr with
  | true =>
    simp [processGroup] at he
    exact reportEvents_no_lock env.keys p kg.1 kg.2 e he
  | false =>
    simp [processGroup] at he
    rcases he with he | he
    · exact reportEvents_no_lock env.keys p kg.1 kg.2 e he
    · obtain ⟨i, rfl⟩ := removeSeq_only_removes env _ e he
      simp

theorem processGroups_no_lock (env : Env) (dr : Bool) (p : ExpirePolicy)
    (gs : List (GroupKey × List Snapshot)) :
    ∀ e ∈ (processGroups env dr p gs).1, e ≠ Event.lockAcquire ∧ e ≠ Event.lockRelease := by
  induction gs with
  | nil => simp [processGroups]
  | cons kg rest ih =>
    intro e he
    cases hr : (processGroup env dr p kg).2 with
    | some err =>
      simp [processGroups, hr] at he
      exact processGroup_no_lock env dr p kg e he
    | none =>
      simp [processGroups, hr] at he
      rcases he with he | he
      · exact processGroup_no_lock env dr p kg e he
      · exact ih e he

theorem executeBody_no_lock (env : Env) (cmd : CmdForget) (args : List String) :
    ∀ e ∈ (executeBody env cmd args).1, e ≠ Event.lockAcquire ∧ e ≠ Event.lockRelease := by
  intro e he
  cases hi : env.indexOk with
  | some err =>
    simp [executeBody, hi] at he
    simp [he]
  | none =>
    cases hp : (processArgs env cmd.dryRun args).2 with
    | some err =>
      simp [executeBody, hi, hp] at he
      rcases he with rfl | he
      · simp
      · exact processArgs_no_lock env cmd.dryRun args e he
    | none =>
      cases hpe : cmd.policy.isEmptyPolicy with
      | true =>
        simp [executeBody, hi, hp, hpe] at he
        rcases he with rfl | he
        · simp
        · exact processArgs_no_lock env cmd.dryRun args e he
      | false =>
        cases hla : env.loadAll with
        | error err =>
          simp [executeBody, hi, hp, hpe, hla] at he
          rcases he with rfl | he | rfl
          · simp
          · exact processArgs_no_lock env cmd.dryRun args e he
          · simp
        | ok snaps =>
          simp [executeBody, hi, hp, hpe, hla] at he
          rcases he with rfl | he | rfl | he
          · simp
          · exact processArgs_no_lock env cmd.dryRun args e he
          · simp
          · exact processGroups_no_lock env cmd.dryRun cmd.policy
              (groupSnapshots cmd snaps) e he

/-- C8: once the repository is opened, the exclusive lock is acquired
exactly once and before the index load and every lookup or removal (the
lockAcquire event is the head of the trace and occurs nowhere later), and
the deferred unlock runs on every exit path: the trace always ends with
the lockRelease event, also when the body failed, and the unlock call is
issued even on the path on which lock acquisition itself failed. -/
theorem lock_scoped (env : Env) (cmd : CmdForget) (args : List String)
    (h : env.openOk = none) :
    (env.lockOk = none →
      execute env cmd args =
        (Event.lockAcquire :: (executeBody env cmd args).1 ++ [Event.lockRelease],
         (executeBody env cmd args).2) ∧
      ∀ e ∈ (executeBody env cmd args).1,
        e ≠ Event.lockAcquire ∧ e ≠ Event.lockRelease) ∧
    (∀ e2, env.lockOk = some e2 → execute env cmd args = ([Event.lockRelease], some e2)) := by
  constructor
  · intro hl
    exact ⟨by simp [execute, h, hl], executeBody_no_lock env cmd args⟩
  · intro e2 hl
    simp [execute, h, hl]

theorem lock_scoped_witness :
    envOk.openOk = none ∧
    ((envOk.lockOk = none →
      execute envOk cmdBase ["ida"] =
        (Event.lockAcquire :: (executeBody envOk cmdBase ["ida"]).1 ++ [Event.lockRelease],
         (executeBody envOk cmdBase ["ida"]).2) ∧
      ∀ e ∈ (executeBody envOk cmdBase ["ida"]).1,
        e ≠ Event.lockAcquire ∧ e ≠ Event.lockRelease) ∧
    (∀ e2, envOk.lockOk = some e2 →
      execute envOk cmdBase ["ida"] = ([Event.lockRelease], some e2))) :=
  ⟨rfl, lock_scoped envOk cmdBase ["ida"] rfl⟩

theorem processArgs_no_phase (env : Env) (dr : Bool) (args : List String) :
    ∀ e ∈ (processArgs env dr args).1, policyPhase e = false := by
  induction args with
  | nil => simp [processArgs]
  | cons s rest ih =>
    intro e he
    cases h : env.findSnap s with
    | error err =>
      simp [processArgs, h] at he
      simp [he, policyPhase]
    | ok id2 =>
      cases dr with
      | true =>
        simp [processArgs, h] at he
        rcases he with rfl | rfl | he
        · simp [policyPhase]
        · simp [policyPhase]
        · exact ih e he
      | false =>
        cases hr : env.removeOk id2 with
        | some err =>
          simp [processArgs, h, hr] at he
          rcases he with rfl | rfl <;> simp [policyPhase]
        | none =>
          simp [processArgs, h, hr] at he
          rcases he with rfl | rfl | rfl | he
          · simp [policyPhase]
          · simp [policyPhase]
          · simp [policyPhase]
          · exact ih e he

/-- C3: when the retention policy is empty (every count 0 and no
keep-tags), Execute performs no policy phase at all — on no path does the
trace contain snapshot loading, a group report or any other policy-phase
event — and, when the open, lock, index and explicit-argument steps
succeed, the run stops right after the explicit arguments and returns
success. -/
theorem emptyPolicy_stops (env : Env) (cmd : CmdForget) (args : List String)
    (h : cmd.policy.isEmptyPolicy = true) :
    (∀ e ∈ (execute env cmd args).1, policyPhase e = false) ∧
    (env.openOk = none → env.lockOk = none → env.indexOk = none →
      (processArgs env cmd.dryRun args).2 = none →
      execute env cmd args =
        (Event.lockAcquire :: Event.loadIndex :: (processArgs env cmd.dryRun args).1 ++
          [Event.lockRelease], none)) := by
  constructor
  · intro e he
    cases ho : env.openOk with
    | some err => simp [execute, ho] at he
    | none =>
      cases hl : env.lockOk with
      | some err =>
        simp [execute, ho, hl] at he
        simp [he, policyPhase]
      | none =>
        simp [execute, ho, hl] at he
        rcases he with rfl | he | rfl
        · simp [policyPhase]
        · cases hi : env.indexOk with
          | some err =>
            simp [executeBody, hi] at he
            simp [he, policyPhase]
          | none =>
            cases hp : (processArgs env cmd.dryRun args).2 with
            | some err =>
              simp [executeBody, hi, hp] at he
              rcases he with rfl | he
              · simp [policyPhase]
              · exact processArgs_no_phase env cmd.dryRun args e he
            | none =>
              simp [executeBody, hi, hp, h] at he
              rcases he with rfl | he
              · simp [policyPhase]
              · exact processArgs_no_phase env cmd.dryRun args e he
        · simp [policyPhase]
  · intro ho hl hi hp
    simp [execute, executeBody, ho, hl, hi, hp, h]

theorem emptyPolicy_stops_witness :
    cmdNoPolicy.policy.isEmptyPolicy = true ∧
    ((∀ e ∈ (execute envOk cmdNoPolicy ["ida"]).1, policyPhase e = false) ∧
    (envOk.openOk = none → envOk.lockOk = none → envOk.indexOk = none →
      (processArgs envOk cmdNoPolicy.dryRun ["ida"]).2 = none →
      execute envOk cmdNoPolicy ["ida"] =
        (Event.lockAcquire :: Event.loadIndex ::
          (processArgs envOk cmdNoPolicy.dryRun ["ida"]).1 ++
          [Event.lockRelease], none))) :=
  ⟨rfl, emptyPolicy_stops envOk cmdNoPolicy ["ida"] rfl⟩

theorem processArgs_all_ok (env : Env) (dr : Bool) (args : List String)
    (h : ∀ t ∈ args, argOk env dr t = true) :
    processArgs env dr args = ((args.map (perArg env dr)).flatten, none) := by
  induction args with
  | nil => simp [processArgs]
  | cons s rest ih =>
    have hs := h s (by simp)
    have hrest := ih (fun t ht => h t (by simp [ht]))
    cases hf : env.findSnap s with
    | error err => simp [argOk, hf] at hs
    | ok id2 =>
      cases dr with
      | true => simp [processArgs, perArg, hf, hrest]
      | false =>
        have hnone : (env.removeOk id2).isNone = true := by simpa [argOk, hf] using hs
        cases hr : env.removeOk id2 with
        | some err => simp [hr] at hnone
        | none => simp [processArgs, perArg, hf, hr, hrest]

theorem processArgs_first_fail (env : Env) (dr : Bool) (pre : List String) (s : String)
    (post : List String) (e : Err)
    (hpre : ∀ t ∈ pre, argOk env dr t = true)
    (hs : env.findSnap s = .error e) :
    processArgs env dr (pre ++ s :: post) =
      ((pre.map (perArg env dr)).flatten ++ [Event.findSnap s], some e) := by
  induction pre with
  | nil => simp [processArgs, hs]
  | cons t rest ih =>
    have ht := hpre t (by simp)
    have hrest := ih (fun u hu => hpre u (by simp [hu]))
    cases hf : env.findSnap t with
    | error err => simp [argOk, hf] at ht
    | ok id2 =>
      cases dr with
      | true => simp [processArgs, perArg, hf, hrest]
      | false =>
        have hnone : (env.removeOk id2).isNone = true := by simpa [argOk, hf] using ht
        cases hr : env.removeOk id2 with
        | some err => simp [hr] at hnone
        | none => simp [processArgs, perArg, hf, hr, hrest]

/-- C6: explicit snapshot identifiers are processed in argument order,
independently of the policy and the grouping filters (the statement holds
for every CmdForget value): each successfully processed argument
contributes its resolution followed by its removal and removal report
(not dry run) or only the would-remove report (dry run); the first
argument whose resolution fails aborts the whole command immediately with
that error, with no further resolution, no snapshot loading and no group
events after it. -/
theorem explicitArgs_spec (env : Env) (cmd : CmdForget) (pre : List String) (s : String)
    (post : List String) (e : Err)
    (ho : env.openOk = none) (hl : env.lockOk = none) (hi : env.indexOk = none)
    (hpre : ∀ t ∈ pre, argOk env cmd.dryRun t = true)
    (hs : env.findSnap s = .error e) :
    execute env cmd (pre ++ s :: post) =
      (Event.lockAcquire :: Event.loadIndex ::
        ((pre.map (perArg env cmd.dryRun)).flatten ++ [Event.findSnap s]) ++
        [Event.lockRelease], some e) ∧
    (∀ args2, (∀ t ∈ args2, argOk env cmd.dryRun t = true) →
      processArgs env cmd.dryRun args2 = ((args2.map (perArg env cmd.dryRun)).flatten, none)) ∧
    (∀ t id2, env.findSnap t = Except.ok id2 →
      perArg env true t = [Event.findSnap t, Event.printWouldRemove id2]) ∧
    (∀ t id2, env.findSnap t = Except.ok id2 → env.removeOk id2 = none →
      perArg env false t = [Event.findSnap t, Event.backendRemove id2, Event.printRemoved id2]) := by
  refine ⟨?_, fun args2 h2 => processArgs_all_ok env cmd.dryRun args2 h2, ?_, ?_⟩
  · have hpa := processArgs_first_fail env cmd.dryRun pre s post e hpre hs
    simp [execute, executeBody, ho, hl, hi, hpa]
  · intro t id2 hf
    simp [perArg, hf]
  · intro t id2 hf hr
    simp [perArg, hf, hr]

theorem explicitArgs_spec_witness :
    (∀ t ∈ ["ida"], argOk envFindFail cmdBase.dryRun t = true) ∧
    envFindFail.findSnap "bad" = Except.error "snapshot not found" ∧
    execute envFindFail cmdBase (["ida"] ++ "bad" :: ["idc"]) =
      (Event.lockAcquire :: Event.loadIndex ::
        (((["ida"] : List String).map (perArg envFindFail cmdBase.dryRun)).flatten ++
          [Event.findSnap "bad"]) ++ [Event.lockRelease], some "snapshot not found") :=
  ⟨by decide, by rfl,
   (explicitArgs_spec envFindFail cmdBase ["ida"] "bad" ["idc"] "snapshot not found"
      rfl rfl rfl (by decide) (by rfl)).1⟩

theorem removeSeq_first_fail (env : Env) (spre : List Snapshot) (sn : Snapshot)
    (spost : List Snapshot) (e : Err)
    (hp : ∀ t ∈ spre, env.removeOk t.id = none)
    (he : env.removeOk sn.id = some e) :
    removeSeq env (spre ++ sn :: spost) =
      (spre.map (fun t => Event.backendRemove t.id) ++ [Event.backendRemove sn.id], some e) := by
  induction spre with
  | nil => simp [removeSeq, he]
  | cons t rest ih =>
    have ht : env.removeOk t.id = none := hp t (by simp)
    have hrest := ih (fun u hu => hp u (by simp [hu]))
    simp [removeSeq, ht, hrest]

theorem processGroups_all_ok (env : Env) (dr : Bool) (p : ExpirePolicy)
    (gs : List (GroupKey × List Snapshot))
    (h : ∀ kg ∈ gs, (processGroup env dr p kg).2 = none) :
    processGroups env dr p gs =
      ((gs.map (fun kg => (processGroup env dr p kg).1)).flatten, none) := by
  induction gs with
  | nil => simp [processGroups]
  | cons kg rest ih =>
    have hkg : (processGroup env dr p kg).2 = none := h kg (by simp)
    have hrest := ih (fun u hu => h u (by simp [hu]))
    simp [processGroups, hkg, hrest]

theorem processGroups_first_fail (env : Env) (dr : Bool) (p : ExpirePolicy)
    (gpre : List (GroupKey × List Snapshot)) (kg0 : GroupKey × List Snapshot)
    (gpost : List (GroupKey × List Snapshot)) (e : Err)
    (hpre : ∀ kg ∈ gpre, (processGroup env dr p kg).2 = none)
    (hf : (processGroup env dr p kg0).2 = some e) :
    processGroups env dr p (gpre ++ kg0 :: gpost) =
      ((gpre.map (fun kg => (processGroup env dr p kg).1)).flatten ++
        (processGroup env dr p kg0).1, some e) := by
  induction gpre with
  | nil => simp [processGroups, hf]
  | cons kg rest ih =>
    have hkg : (processGroup env dr p kg).2 = none := hpre kg (by simp)
    have hrest := ih (fun u hu => hpre u (by simp [hu]))
    simp [processGroups, hkg, hrest]

theorem processGroup_fail_shape (env : Env) (p : ExpirePolicy) (k : GroupKey)
    (g : List Snapshot) (spre : List Snapshot) (sn : Snapshot) (spost : List Snapshot)
    (e : Err)
    (hrs : (applyPolicy env.keys g p).2 = spre ++ sn :: spost)
    (hspre : ∀ t ∈ spre, env.removeOk t.id = none)
    (hsn : env.removeOk sn.id = some e) :
    processGroup env false p (k, g) =
      (reportEvents env.keys p k g ++
        (spre.map (fun t => Event.backendRemove t.id) ++ [Event.backendRemove sn.id]),
       some e) := by
  have hseq := removeSeq_first_fail env spre sn spost e hspre hsn
  simp [processGroup, hrs, hseq]

/-- C7: in a non-dry run, per-group removals are issued sequentially and
the first failing removal aborts the whole command with that error: the
final trace consists of the explicit-argument phase, the events of the
groups already processed (whose removals were all issued and remain
issued, with no rollback event of any kind in the model), this group's
report, the removals issued before the failure, and the failing removal —
with nothing for the later snapshots of this group or for later groups. -/
theorem removalFailure_aborts (env : Env) (cmd : CmdForget) (args : List String)
    (snaps : List Snapshot) (gpre : List (GroupKey × List Snapshot)) (k : GroupKey)
    (g : List Snapshot) (gpost : List (GroupKey × List Snapshot))
    (spre : List Snapshot) (sn : Snapshot) (spost : List Snapshot) (e : Err)
    (ho : env.openOk = none) (hl : env.lockOk = none) (hi : env.indexOk = none)
    (hdr : cmd.dryRun = false)
    (hargs : (processArgs env false args).2 = none)
    (hne : cmd.policy.isEmptyPolicy = false)
    (hload : env.loadAll = .ok snaps)
    (hgroups : groupSnapshots cmd snaps = gpre ++ (k, g) :: gpost)
    (hgpre : ∀ kg ∈ gpre, (processGroup env false cmd.policy kg).2 = none)
    (hrs : (applyPolicy env.keys g cmd.policy).2 = spre ++ sn :: spost)
    (hspre : ∀ t ∈ spre, env.removeOk t.id = none)
    (hsn : env.removeOk sn.id = some e) :
    execute env cmd args =
      (Event.lockAcquire ::
        ((Event.loadIndex ::
          ((processArgs env false args).1 ++
            (Event.loadAllSnaps ::
              ((gpre.map (fun kg => (processGroup env false cmd.policy kg).1)).flatten ++
                (reportEvents env.keys cmd.policy k g ++
                  (spre.map (fun t => Event.backendRemove t.id) ++
                    [Event.backendRemove sn.id])))))) ++ [Event.lockRelease]),
       some e) := by
  have hpg0 := processGroup_fail_shape env cmd.policy k g spre sn spost e hrs hspre hsn
  have hgs := processGroups_first_fail env false cmd.policy gpre (k, g) gpost e hgpre
    (by simp [hpg0])
  simp [execute, executeBody, ho, hl, hi, hdr, hargs, hne, hload, hgroups, hgs, hpg0]

theorem removalFailure_aborts_witness :
    envRemoveFail.removeOk snapC.id = some "io error" ∧
    (applyPolicy envRemoveFail.keys [snapA, snapB, snapC] cmdBase.policy).2 =
      [snapB] ++ snapC :: [] ∧
    execute envRemoveFail cmdBase [] =
      (Event.lockAcquire ::
        ((Event.loadIndex ::
          ((processArgs envRemoveFail false []).1 ++
            (Event.loadAllSnaps ::
              ((([] : List (GroupKey × List Snapshot)).map
                  (fun kg => (processGroup envRemoveFail false cmdBase.policy kg).1)).flatten ++
                (reportEvents envRemoveFail.keys cmdBase.policy
                    { hostname := "hostA", dirs := "/a" } [snapA, snapB, snapC] ++
                  ([snapB].map (fun t => Event.backendRemove t.id) ++
                    [Event.backendRemove snapC.id])))))) ++ [Event.lockRelease]),
       some "io error") :=
  ⟨by decide, by decide,
   removalFailure_aborts envRemoveFail cmdBase [] [snapA, snapB, snapC] []
     { hostname := "hostA", dirs := "/a" } [snapA, snapB, snapC] [] [snapB] snapC [] "io error"
     rfl rfl rfl rfl rfl rfl rfl (by decide) (by simp) (by decide) (by decide) (by decide)⟩

theorem emptyPaths_silently_omitted_witness :
    snapE2 ∈ (applyPolicy envOk.keys [snapE1, snapE2] pLast1).2 ∧
    snapE2.paths = [] ∧
    (snapRows snapE2 = [] ∧
     Event.removeCount (applyPolicy envOk.keys [snapE1, snapE2] pLast1).2.length ∈
       (processGroup envOk false pLast1
         ({ hostname := "hostA", dirs := "" }, [snapE1, snapE2])).1 ∧
     Event.backendRemove snapE2.id ∈
       (processGroup envOk false pLast1
         ({ hostname := "hostA", dirs := "" }, [snapE1, snapE2])).1) :=
  ⟨by decide, rfl,
   emptyPaths_silently_omitted.2 envOk pLast1 { hostname := "hostA", dirs := "" }
     [snapE1, snapE2] snapE2 (by decide) rfl (by decide)⟩

theorem mem_addToGroup (acc : List (GroupKey × List Snapshot)) (k : GroupKey)
    (sn s : Snapshot) :
    (∃ kg ∈ addToGroup acc k sn, s ∈ kg.2) ↔ (∃ kg ∈ acc, s ∈ kg.2) ∨ s = sn := by
  induction acc with
  | nil => simp [addToGroup]
  | cons hd rest ih =>
    obtain ⟨k', l⟩ := hd
    by_cases hk : k' = k
    · subst hk
      have hred : addToGroup ((k', l) :: rest) k' sn = (k', l ++ [sn]) :: rest := by
        simp [addToGroup]
      rw [hred]
      constructor
      · rintro ⟨kg, hkg, hs⟩
        rcases List.mem_cons.mp hkg with rfl | h2
        · rcases List.mem_append.mp hs with h3 | h3
          · exact Or.inl ⟨(k', l), List.mem_cons_self _ _, h3⟩
          · exact Or.inr (by simpa using h3)
        · exact Or.inl ⟨kg, List.mem_cons_of_mem _ h2, hs⟩
      · rintro (⟨kg, hkg, hs⟩ | rfl)
        · rcases List.mem_cons.mp hkg with rfl | h2
          · exact ⟨(k', l ++ [sn]), List.mem_cons_self _ _, List.mem_append.mpr (Or.inl hs)⟩
          · exact ⟨kg, List.mem_cons_of_mem _ h2, hs⟩
        · exact ⟨(k', l ++ [s]), List.mem_cons_self _ _,
            List.mem_append.mpr (Or.inr (by simp))⟩
    · have hred : addToGroup ((k', l) :: rest) k sn = (k', l) :: addToGroup rest k sn := by
        simp [addToGroup, hk]
      rw [hred]
      constructor
      · rintro ⟨kg, hkg, hs⟩
        rcases List.mem_cons.mp hkg with rfl | h2
        · exact Or.inl ⟨(k', l), List.mem_cons_self _ _, hs⟩
        · rcases ih.mp ⟨kg, h2, hs⟩ with ⟨kg2, h3, h4⟩ | rfl
          · exact Or.inl ⟨kg2, List.mem_cons_of_mem _ h3, h4⟩
          · exact Or.inr rfl
      · rintro (⟨kg, hkg, hs⟩ | rfl)
        · rcases List.mem_cons.mp hkg with rfl | h2
          · exact ⟨(k', l), List.mem_cons_self _ _, hs⟩
          · obtain ⟨kg2, h3, h4⟩ := ih.mpr (Or.inl ⟨kg, h2, hs⟩)
            exact ⟨kg2, List.mem_cons_of_mem _ h3, h4⟩
        · obtain ⟨kg2, h3, h4⟩ := ih.mpr (Or.inr rfl)
          exact ⟨kg2, List.mem_cons_of_mem _ h3, h4⟩

theorem mem_buildGroups (cmd : CmdForget) (l : List Snapshot)
    (acc : List (GroupKey × List Snapshot)) (s : Snapshot) :
    (∃ kg ∈ buildGroups cmd l acc, s ∈ kg.2) ↔
      (∃ kg ∈ acc, s ∈ kg.2) ∨ (s ∈ l ∧ survives cmd s = true) := by
  induction l generalizing acc with
  | nil => simp [buildGroups]
  | cons sn rest ih =>
    cases hs : survives cmd sn with
    | true =>
      have hred : buildGroups cmd (sn :: rest) acc =
          buildGroups cmd rest (addToGroup acc (snapKey sn) sn) := by
        simp [buildGroups, hs]
      rw [hred, ih, mem_addToGroup]
      constructor
      · rintro ((⟨kg, h1, h2⟩ | heq) | ⟨h1, h2⟩)
        · exact Or.inl ⟨kg, h1, h2⟩
        · exact Or.inr ⟨by simp [heq], by rw [heq]; exact hs⟩
        · exact Or.inr ⟨by simp [h1], h2⟩
      · rintro (⟨kg, h1, h2⟩ | ⟨h1, h2⟩)
        · exact Or.inl (Or.inl ⟨kg, h1, h2⟩)
        · rcases List.mem_cons.mp h1 with heq | h3
          · exact Or.inl (Or.inr heq)
          · exact Or.inr ⟨h3, h2⟩
    | false =>
      have hred : buildGroups cmd (sn :: rest) acc = buildGroups cmd rest acc := by
        simp [buildGroups, hs]
      rw [hred, ih]
      constructor
      · rintro (h | ⟨h1, h2⟩)
        · exact Or.inl h
        · exact Or.inr ⟨by simp [h1], h2⟩
      · rintro (h | ⟨h1, h2⟩)
        · exact Or.inl h
        · rcases List.mem_cons.mp h1 with heq | h3
          · exfalso
            rw [heq] at h2
            simp [hs] at h2
          · exact Or.inr ⟨h3, h2⟩

theorem survives_iff (cmd : CmdForget) (sn : Snapshot) :
    survives cmd sn = true ↔
      ¬((cmd.hostname ≠ "" ∧ sn.hostname ≠ cmd.hostname) ∨ ¬(∀ t ∈ cmd.tags, t ∈ sn.tags)) := by
  simp [survives, hasTags, List.all_eq_true, not_or]
  intro _
  constructor
  · rintro (h1 | h1) hne
    · exact absurd h1 hne
    · exact h1
  · intro h1
    by_cases hne : cmd.hostname = ""
    · exact Or.inl hne
    · exact Or.inr (h1 hne)

/-- C4: a loaded snapshot is excluded entirely from grouping (and hence
from policy evaluation, reporting and deletion, which only see the built
groups) iff the hostname filter is non-empty and differs from the
snapshot's hostname or the snapshot lacks one of the required filter
tags; with both filters empty no snapshot is excluded. -/
theorem hostTagFilter_excludes (cmd : CmdForget) (snaps : List Snapshot) (sn : Snapshot)
    (h : sn ∈ snaps) :
    ((¬∃ kg ∈ groupSnapshots cmd snaps, sn ∈ kg.2) ↔
      ((cmd.hostname ≠ "" ∧ sn.hostname ≠ cmd.hostname) ∨ ¬(∀ t ∈ cmd.tags, t ∈ sn.tags))) ∧
    (cmd.hostname = "" → cmd.tags = [] → ∃ kg ∈ groupSnapshots cmd snaps, sn ∈ kg.2) := by
  have hmem : (∃ kg ∈ groupSnapshots cmd snaps, sn ∈ kg.2) ↔ survives cmd sn = true := by
    rw [groupSnapshots, mem_buildGroups]
    simp [h]
  constructor
  · rw [hmem, survives_iff]
    exact not_not
  · intro h1 h2
    rw [hmem, survives_iff]
    simp [h1, h2]

theorem hostTagFilter_excludes_witness :
    snapA ∈ [snapA, snapD] ∧
    (((¬∃ kg ∈ groupSnapshots cmdHostFilter [snapA, snapD], snapA ∈ kg.2) ↔
      ((cmdHostFilter.hostname ≠ "" ∧ snapA.hostname ≠ cmdHostFilter.hostname) ∨
        ¬(∀ t ∈ cmdHostFilter.tags, t ∈ snapA.tags))) ∧
    (cmdHostFilter.hostname = "" → cmdHostFilter.tags = [] →
      ∃ kg ∈ groupSnapshots cmdHostFilter [snapA, snapD], snapA ∈ kg.2)) :=
  ⟨by decide, hostTagFilter_excludes cmdHostFilter [snapA, snapD] snapA (by decide)⟩

theorem key_addToGroup : ∀ (acc : List (GroupKey × List Snapshot)) (k : GroupKey)
    (sn : Snapshot),
    (∀ kg ∈ acc, ∀ s ∈ kg.2, snapKey s = kg.1) → snapKey sn = k →
    ∀ kg ∈ addToGroup acc k sn, ∀ s ∈ kg.2, snapKey s = kg.1
  | [], k, sn => by
    intro hacc hk kg hkg s hs
    simp [addToGroup] at hkg
    subst hkg
    have : s = sn := by simpa using hs
    rw [this]
    exact hk
  | (k', l) :: rest, k, sn => by
    intro hacc hk kg hkg s hs
    by_cases hkk : k' = k
    · subst hkk
      have hred : addToGroup ((k', l) :: rest) k' sn = (k', l ++ [sn]) :: rest := by
        simp [addToGroup]
      rw [hred] at hkg
      rcases List.mem_cons.mp hkg with rfl | hrest
      · rcases List.mem_append.mp hs with h3 | h3
        · exact hacc (k', l) (List.mem_cons_self _ _) s h3
        · have : s = sn := by simpa using h3
          rw [this]
          exact hk
      · exact hacc kg (List.mem_cons_of_mem _ hrest) s hs
    · have hred : addToGroup ((k', l) :: rest) k sn = (k', l) :: addToGroup rest k sn := by
        simp [addToGroup, hkk]
      rw [hred] at hkg
      rcases List.mem_cons.mp hkg with rfl | hrest
      · exact hacc (k', l) (List.mem_cons_self _ _) s hs
      · exact key_addToGroup rest k sn
          (fun kg2 h3 => hacc kg2 (List.mem_cons_of_mem _ h3)) hk kg hrest s hs

theorem addToGroup_map_fst : ∀ (acc : List (GroupKey × List Snapshot)) (k : GroupKey)
    (sn : Snapshot),
    (addToGroup acc k sn).map Prod.fst =
      if k ∈ acc.map Prod.fst then acc.map Prod.fst else acc.map Prod.fst ++ [k]
  | [], k, sn => by simp [addToGroup]
  | (k', l) :: rest, k, sn => by
    by_cases hkk : k' = k
    · subst hkk
      simp [addToGroup]
    · have hred : addToGroup ((k', l) :: rest) k sn = (k', l) :: addToGroup rest k sn := by
        simp [addToGroup, hkk]
      rw [hred]
      have hne : ¬(k = k') := fun h => hkk h.symm
      by_cases hmem : k ∈ rest.map Prod.fst
      · simp [addToGroup_map_fst rest k sn, hmem, hne]
      · simp [addToGroup_map_fst rest k sn, hmem, hne]

theorem keys_nodup_addToGroup (acc : List (GroupKey × List Snapshot)) (k : GroupKey)
    (sn : Snapshot) (h : (acc.map Prod.fst).Nodup) :
    ((addToGroup acc k sn).map Prod.fst).Nodup := by
  rw [addToGroup_map_fst]
  by_cases hmem : k ∈ acc.map Prod.fst
  · simpa [hmem] using h
  · simp [hmem, List.nodup_append, h]

theorem buildGroups_inv : ∀ (cmd : CmdForget) (l : List Snapshot)
    (acc : List (GroupKey × List Snapshot)),
    (∀ kg ∈ acc, ∀ s ∈ kg.2, snapKey s = kg.1) → (acc.map Prod.fst).Nodup →
    (∀ kg ∈ buildGroups cmd l acc, ∀ s ∈ kg.2, snapKey s = kg.1) ∧
      ((buildGroups cmd l acc).map Prod.fst).Nodup
  | cmd, [], acc => fun hco hnd => ⟨hco, hnd⟩
  | cmd, sn :: rest, acc => by
    intro hco hnd
    cases hs : survives cmd sn with
    | true =>
      have hred : buildGroups cmd (sn :: rest) acc =
          buildGroups cmd rest (addToGroup acc (snapKey sn) sn) := by
        simp [buildGroups, hs]
      rw [hred]
      exact buildGroups_inv cmd rest _
        (key_addToGroup acc (snapKey sn) sn hco rfl)
        (keys_nodup_addToGroup acc (snapKey sn) sn hnd)
    | false =>
      have hred : buildGroups cmd (sn :: rest) acc = buildGroups cmd rest acc := by
        simp [buildGroups, hs]
      rw [hred]
      exact buildGroups_inv cmd rest acc hco hnd

theorem groups_inv (cmd : CmdForget) (snaps : List Snapshot) :
    (∀ kg ∈ groupSnapshots cmd snaps, ∀ s ∈ kg.2, snapKey s = kg.1) ∧
      ((groupSnapshots cmd snaps).map Prod.fst).Nodup :=
  buildGroups_inv cmd snaps [] (by simp) (by simp)

theorem assoc_nodup_eq : ∀ (gs : List (GroupKey × List Snapshot)),
    (gs.map Prod.fst).Nodup →
    ∀ (k : GroupKey) (g1 g2 : List Snapshot), (k, g1) ∈ gs → (k, g2) ∈ gs → g1 = g2
  | [], _, k, g1, g2, h1, _ => by cases h1
  | hd :: rest, h, k, g1, g2, h1, h2 => by
    rw [List.map_cons, List.nodup_cons] at h
    rcases List.mem_cons.mp h1 with he1 | hr1
    · rcases List.mem_cons.mp h2 with he2 | hr2
      · exact congrArg Prod.snd (he1.trans he2.symm)
      · exfalso
        apply h.1
        have hk : hd.1 = k := congrArg Prod.fst he1.symm
        rw [hk]
        exact List.mem_map_of_mem Prod.fst hr2
    · rcases List.mem_cons.mp h2 with he2 | hr2
      · exfalso
        apply h.1
        have hk : hd.1 = k := congrArg Prod.fst he2.symm
        rw [hk]
        exact List.mem_map_of_mem Prod.fst hr1
      · exact assoc_nodup_eq rest h.2 k g1 g2 hr1 hr2

theorem colon_split_unique : ∀ (x1 x2 y1 y2 : List Char), ':' ∉ x1 → ':' ∉ x2 →
    x1 ++ ':' :: y1 = x2 ++ ':' :: y2 → x1 = x2 ∧ y1 = y2
  | [], [], y1, y2, _, _, h => by simpa using h
  | [], c :: t, y1, y2, h1, h2, h => by
    exfalso
    injection h with hc ht
    apply h2
    rw [hc]
    exact List.mem_cons_self _ _
  | c :: t, [], y1, y2, h1, h2, h => by
    exfalso
    injection h with hc ht
    apply h1
    rw [← hc]
    exact List.mem_cons_self _ _
  | c :: t, d :: u, y1, y2, h1, h2, h => by
    injection h with hc ht
    have h1t : ':' ∉ t := fun hm => h1 (List.mem_cons_of_mem _ hm)
    have h2u : ':' ∉ u := fun hm => h2 (List.mem_cons_of_mem _ hm)
    obtain ⟨he, hy⟩ := colon_split_unique t u y1 y2 h1t h2u ht
    exact ⟨by rw [hc, he], hy⟩

theorem joinColon_data_cons (p q : String) (rest : List String) :
    (joinColon (p :: q :: rest)).data = p.data ++ ':' :: (joinColon (q :: rest)).data := by
  show (p ++ ":" ++ joinColon (q :: rest)).data = _
  simp [String.data_append]

theorem joinColon_inj : ∀ (l1 l2 : List String),
    (∀ p ∈ l1, ':' ∉ p.data) → (∀ p ∈ l2, ':' ∉ p.data) →
    l1.length = l2.length → joinColon l1 = joinColon l2 → l1 = l2
  | [], [], _, _, _, _ => rfl
  | [], _ :: _, _, _, hlen, _ => by simp at hlen
  | _ :: _, [], _, _, hlen, _ => by simp at hlen
  | [p], [q], _, _, _, h => by
    have hpq : p = q := h
    rw [hpq]
  | [p], _ :: _ :: _, _, _, hlen, _ => by simp at hlen
  | _ :: _ :: _, [q], _, _, hlen, _ => by simp at hlen
  | p :: p2 :: t, q :: q2 :: u, h1, h2, hlen, h => by
    have hd := congrArg String.data h
    rw [joinColon_data_cons, joinColon_data_cons] at hd
    have hp1 : ':' ∉ p.data := h1 p (by simp)
    have hq1 : ':' ∉ q.data := h2 q (by simp)
    obtain ⟨he, hy⟩ := colon_split_unique p.data q.data _ _ hp1 hq1 hd
    have hpq : p = q := congrArg String.mk he
    have hj : joinColon (p2 :: t) = joinColon (q2 :: u) := congrArg String.mk hy
    have hlen2 : (p2 :: t).length = (q2 :: u).length := by simpa using hlen
    have h1t : ∀ r ∈ p2 :: t, ':' ∉ r.data := fun r hr => h1 r (List.mem_cons_of_mem _ hr)
    have h2u : ∀ r ∈ q2 :: u, ':' ∉ r.data := fun r hr => h2 r (List.mem_cons_of_mem _ hr)
    have htail := joinColon_inj (p2 :: t) (q2 :: u) h1t h2u hlen2 hj
    rw [hpq, htail]

/-- C5 (counterexample to the claim as stated): two surviving snapshots
with equal path sets in different orders land in the same group, because
a path may itself contain a colon and the colon-joins then coincide:
paths ["a", "a:a"] and ["a:a", "a"] both join to "a:a:a". -/
theorem groupKey_order_counterexample :
    snapP.hostname = snapQ.hostname ∧
    snapP.paths ≠ snapQ.paths ∧
    List.Perm snapP.paths snapQ.paths ∧
    ∃ kg ∈ groupSnapshots cmdBase [snapP, snapQ], snapP ∈ kg.2 ∧ snapQ ∈ kg.2 := by
  refine ⟨rfl, by decide, by decide, ?_⟩
  exact ⟨({ hostname := "hostA", dirs := "a:a:a" }, [snapP, snapQ]), by decide, by decide⟩

/-- C5 (amended): two surviving snapshots are assigned to the same
retention group iff their hostnames match exactly and their colon-joined
path lists match exactly; equal path sets in different orders yield
different groups provided no path contains a colon (paths containing
colons can make distinct orderings join identically, as the
counterexample shows). -/
theorem groupKey_iff_amended (cmd : CmdForget) (snaps : List Snapshot) (s1 s2 : Snapshot)
    (h1 : s1 ∈ snaps) (h2 : s2 ∈ snaps)
    (hs1 : survives cmd s1 = true) (hs2 : survives cmd s2 = true) :
    ((∃ kg ∈ groupSnapshots cmd snaps, s1 ∈ kg.2 ∧ s2 ∈ kg.2) ↔
      (s1.hostname = s2.hostname ∧ joinColon s1.paths = joinColon s2.paths)) ∧
    ((∀ p ∈ s1.paths, ':' ∉ p.data) → (∀ p ∈ s2.paths, ':' ∉ p.data) →
      s1.paths ≠ s2.paths → List.Perm s1.paths s2.paths →
      ¬∃ kg ∈ groupSnapshots cmd snaps, s1 ∈ kg.2 ∧ s2 ∈ kg.2) := by
  obtain ⟨hco, hnd⟩ := groups_inv cmd snaps
  have hex1 : ∃ kg ∈ groupSnapshots cmd snaps, s1 ∈ kg.2 := by
    rw [groupSnapshots, mem_buildGroups]
    simp [h1, hs1]
  have hex2 : ∃ kg ∈ groupSnapshots cmd snaps, s2 ∈ kg.2 := by
    rw [groupSnapshots, mem_buildGroups]
    simp [h2, hs2]
  have part1 : (∃ kg ∈ groupSnapshots cmd snaps, s1 ∈ kg.2 ∧ s2 ∈ kg.2) ↔
      (s1.hostname = s2.hostname ∧ joinColon s1.paths = joinColon s2.paths) := by
    constructor
    · rintro ⟨kg, hkg, hm1, hm2⟩
      have e1 := hco kg hkg s1 hm1
      have e2 := hco kg hkg s2 hm2
      have hkey : snapKey s1 = snapKey s2 := by rw [e1, e2]
      exact ⟨by simpa [snapKey] using congrArg GroupKey.hostname hkey,
             by simpa [snapKey] using congrArg GroupKey.dirs hkey⟩
    · rintro ⟨hh, hj⟩
      obtain ⟨kg1, hkg1, hm1⟩ := hex1
      obtain ⟨kg2, hkg2, hm2⟩ := hex2
      obtain ⟨k1, g1⟩ := kg1
      obtain ⟨k2, g2⟩ := kg2
      have e1 : snapKey s1 = k1 := hco _ hkg1 s1 hm1
      have e2 : snapKey s2 = k2 := hco _ hkg2 s2 hm2
      have hkey : snapKey s1 = snapKey s2 := by simp [snapKey, hh, hj]
      have hk12 : k1 = k2 := by rw [← e1, ← e2, hkey]
      subst hk12
      have hg : g1 = g2 := assoc_nodup_eq _ hnd k1 g1 g2 hkg1 hkg2
      subst hg
      exact ⟨(k1, g1), hkg1, hm1, hm2⟩
  refine ⟨part1, ?_⟩
  intro hc1 hc2 hne hperm hsame
  have hcc := part1.mp hsame
  exact hne (joinColon_inj s1.paths s2.paths hc1 hc2 hperm.length_eq hcc.2)

theorem groupKey_iff_amended_witness :
    snapA ∈ [snapA, snapB] ∧ snapB ∈ [snapA, snapB] ∧
    survives cmdBase snapA = true ∧ survives cmdBase snapB = true ∧
    ((∃ kg ∈ groupSnapshots cmdBase [snapA, snapB], snapA ∈ kg.2 ∧ snapB ∈ kg.2) ↔
      (snapA.hostname = snapB.hostname ∧
        joinColon snapA.paths = joinColon snapB.paths)) :=
  ⟨by decide, by decide, by decide, by decide,
   (groupKey_iff_amended cmdBase [snapA, snapB] snapA snapB
      (by decide) (by decide) (by decide) (by decide)).1⟩
